import Mathlib

/-!
Verification of the tbtc relay block forwarder (relay/pkg/block/forwarder.go
and relay/pkg/btc): a shallow embedding of the header data model, the header
equality and copy operations, the ancestor-discovery algorithm
(findBestBlock), the pulling and pushing loops, and the error-channel
discipline, together with theorems settling the specification's claims.
-/

namespace TbtcRelay

/-- A Bitcoin digest: `type Digest [32]byte`, a 32-byte little-endian hash.
Equality of Go array values is element-wise, modelled by list equality. -/
structure Digest where
  bytes : List Nat
deriving DecidableEq, Repr

/-- The zero value of `Digest` (all 32 bytes zero). -/
def zeroDigest : Digest := ⟨List.replicate 32 0⟩

/-- `btc.Header`: Hash, Height, PrevHash, MerkleRoot and the 80-byte
serialized form Raw (`[]byte`, modelled as a list of bytes). -/
structure Header where
  Hash : Digest
  Height : Int
  PrevHash : Digest
  MerkleRoot : Digest
  Raw : List Nat
deriving DecidableEq, Repr

/-- The Go zero value `btc.Header\x7b\x7d`: zero digests, height 0, nil Raw. -/
def zeroHeader : Header :=
  { Hash := zeroDigest, Height := 0, PrevHash := zeroDigest
    MerkleRoot := zeroDigest, Raw := [] }

/-- `bytes.Compare`: lexicographic comparison of byte slices, returning
-1, 0 or 1. -/
def bytesCompare : List Nat → List Nat → Int
  | [], [] => 0
  | [], _ :: _ => -1
  | _ :: _, [] => 1
  | a :: as, b :: bs => if a < b then -1 else if b < a then 1 else bytesCompare as bs

/-- `headersEqual` from forwarder.go: all four digest/height fields equal and
`bytes.Compare(first.Raw, second.Raw) == 0`. -/
def headersEqual (first second : Header) : Bool :=
  first.Hash == second.Hash &&
  first.Height == second.Height &&
  first.PrevHash == second.PrevHash &&
  first.MerkleRoot == second.MerkleRoot &&
  bytesCompare first.Raw second.Raw == 0

/-- `Header.Equals` from btc/btc.go: false on a nil receiver argument,
otherwise compares Hash, Height, PrevHash and MerkleRoot (not Raw).
The nil pointer is modelled by `Option.none`. -/
def Header.Equals (header : Header) (other : Option Header) : Bool :=
  match other with
  | none => false
  | some o =>
    header.Hash == o.Hash &&
    header.Height == o.Height &&
    header.PrevHash == o.PrevHash &&
    header.MerkleRoot == o.MerkleRoot

/-- Go `copy(dst, src)`: overwrite the prefix of `dst` with elements of
`src`, up to the shorter length. -/
def copyInto : List Nat → List Nat → List Nat
  | [], _ => []
  | d, [] => d
  | _ :: ds, s :: ss => s :: copyInto ds ss

/-- `make([]byte, len(src))` followed by `copy`: a fresh buffer holding the
bytes of `src`. -/
def copyBytes (src : List Nat) : List Nat :=
  copyInto (List.replicate src.length 0) src

/-- `copyHeaders(dest, src)` from forwarder.go: `*dest = *src`, then
`dest.Raw` is rebuilt as a fresh copy of `src.Raw`. The result is the new
value of `dest`; it does not depend on the old `dest`. -/
def copyHeaders (dest src : Header) : Header :=
  { Hash := src.Hash, Height := src.Height, PrevHash := src.PrevHash
    MerkleRoot := src.MerkleRoot, Raw := copyBytes src.Raw }

/-- Outcome of a single Go channel send on a buffered channel. -/
inductive SendOutcome (α : Type) where
  | sent (buffer : List α)
  | blocked
deriving DecidableEq, Repr

/-- A plain Go send `ch <- v` on a channel with the given capacity and
current buffer: appends when there is room, otherwise the sender blocks. -/
def chanSend {α : Type} (capacity : Nat) (buffer : List α) (v : α) : SendOutcome α :=
  if buffer.length < capacity then SendOutcome.sent (buffer ++ [v])
  else SendOutcome.blocked

/-- Capacity of the forwarder error channel: `make(chan error, 1)` in
`RunForwarder`. -/
def errChanCapacity : Nat := 1

/-- The error reporting performed by both loops, `f.errChan <- err`: a plain
send on the capacity-1 error channel. -/
def reportError (buffer : List String) (e : String) : SendOutcome String :=
  chanSend errChanCapacity buffer e

/-- Modelled from the spec's words, for comparison only: a non-blocking send
(`select` with a `default` branch) that drops the value when the buffer is
full, so the sender always proceeds. -/
def nonBlockingSendSpec {α : Type} (capacity : Nat) (buffer : List α) (v : α) : SendOutcome α :=
  if buffer.length < capacity then SendOutcome.sent (buffer ++ [v])
  else SendOutcome.sent buffer

/-- The Bitcoin node adapter `btc.Handle` as an oracle: each query either
returns a header (height) or fails with an error string. -/
structure BtcChainModel where
  getHeaderByDigest : Digest → Except String Header
  getHeaderByHeight : Int → Except String Header

/-- Result of `findBestBlock`: a header, a terminal error, or fuel
exhaustion of the embedded loop (the Go loop has no fuel bound). -/
inductive FindResult where
  | ok (header : Header)
  | err (e : String)
  | outOfFuel
deriving DecidableEq, Repr

/-- The backward-crawling loop of `findBestBlock`: while the candidate
differs (full-field equality) from the canonical header at its height, step
back through `PrevHash` and refetch the canonical header. -/
def findBestLoop (btc : BtcChainModel) : Nat → Header → Header → FindResult
  | 0, _, _ => FindResult.outOfFuel
  | fuel + 1, best, canon =>
    if headersEqual best canon then FindResult.ok best
    else
      match btc.getHeaderByDigest best.PrevHash with
      | Except.error e => FindResult.err e
      | Except.ok best2 =>
        match btc.getHeaderByHeight best2.Height with
        | Except.error e => FindResult.err e
        | Except.ok canon2 => findBestLoop btc fuel best2 canon2

/-- `findBestBlock`: resolve the host chain's best known digest to a
candidate header (terminal error if the digest is unknown), fetch the
canonical header at its height, then run the backward crawl. -/
def findBestBlock (hostBest : Except String Digest) (btc : BtcChainModel) (fuel : Nat) : FindResult :=
  match hostBest with
  | Except.error e => FindResult.err e
  | Except.ok digest =>
    match btc.getHeaderByDigest digest with
    | Except.error e => FindResult.err e
    | Except.ok best =>
      match btc.getHeaderByHeight best.Height with
      | Except.error e => FindResult.err e
      | Except.ok canon => findBestLoop btc fuel best canon

/-- `c` is reachable from `a` by repeatedly fetching the header named by the
current candidate's `PrevHash`. -/
inductive PrevReach (btc : BtcChainModel) : Header → Header → Prop
  | refl (h : Header) : PrevReach btc h h
  | step (a b c : Header) :
      btc.getHeaderByDigest a.PrevHash = Except.ok b →
      PrevReach btc b c → PrevReach btc a c

/-- Why a loop returned: context cancellation, the quit channel, or a fatal
error (which the loop first reports on the error channel). -/
inductive ExitReason where
  | ctxDone
  | quitSignal
  | fatalError (e : String)
deriving DecidableEq, Repr

/-- Mutable state of the pulling loop: the next height to fetch and the most
recently enqueued header. -/
structure PullerState where
  latestHeight : Int
  lastAdded : Header
deriving DecidableEq, Repr

/-- Initial puller state after ancestor discovery: `latestHeight :=
latestHeader.Height + 1`, `lastAdded := &btc.Header\x7b\x7d`. -/
def pullerInit (ancestor : Header) : PullerState :=
  { latestHeight := ancestor.Height + 1, lastAdded := zeroHeader }

/-- Outcome of one iteration of the pulling loop: exit, or continue with a
new state, the header enqueued (if any) and whether the iteration slept. -/
inductive PullerOutcome where
  | exit (r : ExitReason)
  | cont (s : PullerState) (enqueued : Option Header) (slept : Bool)
deriving DecidableEq, Repr

/-- One iteration of the steady-state pulling loop, with this iteration's
environment: the cancellation and quit signals observed by the `select`, the
`GetBlockCount` response, and the `GetHeaderByHeight(latestHeight)` response
(consulted only when the cursor is at or below the chain height). -/
def pullerStep (ctxDone quitSignal : Bool) (blockCount : Except String Int)
    (headerAtCursor : Except String Header) (s : PullerState) : PullerOutcome :=
  if ctxDone then PullerOutcome.exit ExitReason.ctxDone
  else if quitSignal then PullerOutcome.exit ExitReason.quitSignal
  else
    match blockCount with
    | Except.error e => PullerOutcome.exit (ExitReason.fatalError e)
    | Except.ok chainHeight =>
      if s.latestHeight ≤ chainHeight then
        match headerAtCursor with
        | Except.error e => PullerOutcome.exit (ExitReason.fatalError e)
        | Except.ok newHeader =>
          if headersEqual newHeader s.lastAdded then
            PullerOutcome.cont s none false
          else
            PullerOutcome.cont
              { latestHeight := s.latestHeight + 1
                lastAdded := copyHeaders s.lastAdded newHeader }
              (some newHeader) false
      else PullerOutcome.cont s none true

/-- Result of one iteration of the pushing loop: the batch passed to
`pushHeadersToHostChain` (none when submission was not called), whether the
post-submission sleep ran, and whether (and why) the loop returned. -/
structure PusherResult where
  submitted : Option (List Header)
  slept : Bool
  stop : Option ExitReason
deriving DecidableEq, Repr

/-- One iteration of the pushing loop: the `select` observes cancellation
and quit; otherwise a batch is assembled from the queue (given here as this
iteration's input) and, when non-empty, submitted; a failed submission is
fatal, a successful one is followed by the rate-limiting sleep. -/
def pusherStep (ctxDone quitSignal : Bool) (batch : List Header)
    (pushResult : Except String Unit) : PusherResult :=
  if ctxDone then { submitted := none, slept := false, stop := some ExitReason.ctxDone }
  else if quitSignal then { submitted := none, slept := false, stop := some ExitReason.quitSignal }
  else if batch.length = 0 then { submitted := none, slept := false, stop := none }
  else
    match pushResult with
    | Except.error e =>
      { submitted := some batch, slept := false, stop := some (ExitReason.fatalError e) }
    | Except.ok _ => { submitted := some batch, slept := true, stop := none }

/-- A fixed view of the Bitcoin chain for whole-run reasoning: the canonical
header at each height (none where the node has no block) and the tip height
reported by `GetBlockCount`. -/
structure ChainModel where
  chain : Int → Option Header
  tip : Int

/-- `GetHeaderByHeight` against a fixed chain view. -/
def fetchAt (m : ChainModel) (height : Int) : Except String Header :=
  match m.chain height with
  | some hdr => Except.ok hdr
  | none => Except.error "unknown height"

/-- The sequence of headers enqueued by running the pulling loop for `fuel`
iterations from state `s` against a fixed chain view, with `cancel`
the per-iteration context-cancellation signal (iteration index `i`). -/
def pullerRun (m : ChainModel) (cancel : Nat → Bool) : Nat → Nat → PullerState → List Header
  | 0, _, _ => []
  | fuel + 1, i, s =>
    match pullerStep (cancel i) false (Except.ok m.tip) (fetchAt m s.latestHeight) s with
    | PullerOutcome.exit _ => []
    | PullerOutcome.cont s2 enq _ => enq.toList ++ pullerRun m cancel fuel (i + 1) s2

/-- The consecutive-linkage property P1: each header's height is its
predecessor's height plus one and its PrevHash is its predecessor's Hash. -/
def wellLinked : List Header → Bool
  | [] => true
  | [_] => true
  | x :: y :: rest =>
    (y.Height == x.Height + 1 && y.PrevHash == x.Hash) && wellLinked (y :: rest)

/-- A small concrete digest for concrete examples: one meaningful byte. -/
def dgW (n : Nat) : Digest := ⟨[n]⟩

/-- A header whose Raw field holds the byte 0. -/
def hdrRawA : Header :=
  { Hash := dgW 1, Height := 7, PrevHash := dgW 0, MerkleRoot := dgW 2, Raw := [0] }

/-- Like `hdrRawA` in every digest and height field, but Raw holds byte 1. -/
def hdrRawB : Header :=
  { Hash := dgW 1, Height := 7, PrevHash := dgW 0, MerkleRoot := dgW 2, Raw := [1] }

/-- A header at height 0 whose parent digest is unknown to the node. -/
def hdrB0 : Header :=
  { Hash := dgW 10, Height := 0, PrevHash := dgW 99, MerkleRoot := zeroDigest, Raw := [] }

/-- A header at height 1 whose parent is `hdrB0`. -/
def hdrB1 : Header :=
  { Hash := dgW 11, Height := 1, PrevHash := dgW 10, MerkleRoot := zeroDigest, Raw := [1] }

/-- A two-header Bitcoin node serving `hdrB0` and `hdrB1`. -/
def btcW : BtcChainModel :=
  { getHeaderByDigest := fun d =>
      if d = dgW 10 then Except.ok hdrB0
      else if d = dgW 11 then Except.ok hdrB1
      else Except.error "unknown digest"
    getHeaderByHeight := fun k =>
      if k = 0 then Except.ok hdrB0
      else if k = 1 then Except.ok hdrB1
      else Except.error "unknown height" }

/-- A concrete ancestor at height 0 for running the pulling loop. -/
def ancW : Header :=
  { Hash := dgW 20, Height := 0, PrevHash := dgW 19, MerkleRoot := zeroDigest, Raw := [0] }

/-- The canonical header at height 1 of the concrete chain view. -/
def hdrC1 : Header :=
  { Hash := dgW 21, Height := 1, PrevHash := dgW 20, MerkleRoot := zeroDigest, Raw := [1] }

/-- The canonical header at height 2 of the concrete chain view. -/
def hdrC2 : Header :=
  { Hash := dgW 22, Height := 2, PrevHash := dgW 21, MerkleRoot := zeroDigest, Raw := [2] }

/-- A fixed chain view holding `hdrC1` and `hdrC2` with tip height 2. -/
def chainW : ChainModel :=
  { chain := fun k => if k = 1 then some hdrC1 else if k = 2 then some hdrC2 else none
    tip := 2 }

theorem bytesCompare_eq_zero (a : List Nat) : ∀ b, bytesCompare a b = 0 ↔ a = b := by
  induction a with
  | nil => intro b; cases b <;> simp [bytesCompare]
  | cons x xs ih =>
    intro b
    cases b with
    | nil => simp [bytesCompare]
    | cons y ys =>
      simp only [bytesCompare]
      rcases Nat.lt_trichotomy x y with h1 | h1 | h1
      · rw [if_pos h1]
        constructor
        · intro h; exact absurd h (by decide)
        · intro h
          injection h with h2 h3
          omega
      · subst h1
        rw [if_neg (by omega), if_neg (by omega)]
        simp [ih]
      · rw [if_neg (by omega), if_pos h1]
        constructor
        · intro h; exact absurd h (by decide)
        · intro h
          injection h with h2 h3
          omega

theorem copyInto_replicate (s : List Nat) : copyInto (List.replicate s.length 0) s = s := by
  induction s with
  | nil => rfl
  | cons x xs ih => simp [List.replicate_succ, copyInto, ih]

theorem copyBytes_eq (s : List Nat) : copyBytes s = s := copyInto_replicate s

/-- Claim C2, counterexample: two headers agreeing on Hash, Height,
PrevHash and MerkleRoot but with different Raw bytes are reported equal by
`Header.Equals`, so the method does not compare all five fields; the
forwarder's `headersEqual` distinguishes them. -/
theorem claim2_equals_ignores_raw_cex :
    Header.Equals hdrRawA (some hdrRawB) = true ∧
    hdrRawA.Raw ≠ hdrRawB.Raw ∧
    headersEqual hdrRawA hdrRawB = false := by
  decide

/-- Claim C2, amended: `headersEqual` returns true iff all five fields are
equal, with Raw compared byte-for-byte; `btc.Header.Equals` returns false
for a nil argument and otherwise compares only the four fields Hash,
Height, PrevHash and MerkleRoot, ignoring Raw. -/
theorem claim2_header_equality (a b : Header) :
    (headersEqual a b = true ↔
      (a.Hash = b.Hash ∧ a.Height = b.Height ∧ a.PrevHash = b.PrevHash ∧
        a.MerkleRoot = b.MerkleRoot ∧ a.Raw = b.Raw)) ∧
    (Header.Equals a (some b) = true ↔
      (a.Hash = b.Hash ∧ a.Height = b.Height ∧ a.PrevHash = b.PrevHash ∧
        a.MerkleRoot = b.MerkleRoot)) ∧
    Header.Equals a none = false := by
  refine ⟨?_, ?_, rfl⟩
  · simp only [headersEqual, Bool.and_eq_true, beq_iff_eq, bytesCompare_eq_zero]
    tauto
  · simp only [Header.Equals, Bool.and_eq_true, beq_iff_eq]
    tauto

/-- Claim C10: `Header.Equals` returns false when the other header is nil,
whatever the receiver's contents. -/
theorem claim10_equals_nil_false (h : Header) : Header.Equals h none = false := rfl

/-- Claim C9: after `copyHeaders(dest, src)` the new value of `dest` is
equal to `src` under `headersEqual`; its Raw is a copy built by
`make`+`copy` with the same length and contents as `src.Raw`; and the
result is independent of the previous `dest` (so `src`, which the Go code
never writes, determines the outcome alone). -/
theorem claim9_copyHeaders_spec (dest src : Header) :
    headersEqual (copyHeaders dest src) src = true ∧
    (copyHeaders dest src).Raw = src.Raw ∧
    (copyHeaders dest src).Raw.length = src.Raw.length ∧
    ∀ d2 : Header, copyHeaders dest src = copyHeaders d2 src := by
  refine ⟨?_, ?_, ?_, fun d2 => rfl⟩
  · simp [headersEqual, copyHeaders, copyBytes_eq, bytesCompare_eq_zero]
  · simp [copyHeaders, copyBytes_eq]
  · simp [copyHeaders, copyBytes_eq]

/-- Claim C4, counterexample: the loops report errors with a plain send
`f.errChan <- err`; when the capacity-1 channel already buffers an error,
that send blocks — the later error is not dropped with the sender
proceeding, as the claimed non-blocking semantics would have it. -/
theorem claim4_send_blocks_cex :
    reportError ["first failure"] "second failure" = SendOutcome.blocked ∧
    nonBlockingSendSpec errChanCapacity ["first failure"] "second failure" =
      SendOutcome.sent ["first failure"] ∧
    reportError ["first failure"] "second failure" ≠
      nonBlockingSendSpec errChanCapacity ["first failure"] "second failure" := by
  refine ⟨rfl, rfl, ?_⟩
  intro h
  exact absurd h (by decide)

/-- Claim C4, amended: the error channel has capacity 1 and the loops use a
plain (blocking) send: the first reported error is buffered without
blocking, and a later send onto the non-empty buffer blocks until the
channel is drained rather than being dropped. -/
theorem claim4_blocking_send (e e2 : String) (b : List String) (hb : 1 ≤ b.length) :
    errChanCapacity = 1 ∧
    reportError [] e = SendOutcome.sent [e] ∧
    reportError b e2 = SendOutcome.blocked := by
  refine ⟨rfl, rfl, ?_⟩
  unfold reportError chanSend errChanCapacity
  rw [if_neg (by omega)]

/-- Witness for the amended C4 at a concrete one-element buffer. -/
theorem claim4_blocking_send_witness :
    errChanCapacity = 1 ∧
    reportError [] "boom" = SendOutcome.sent ["boom"] ∧
    reportError ["boom"] "later" = SendOutcome.blocked :=
  claim4_blocking_send "boom" "later" ["boom"] (by decide)

/-- Claim C8: when batch assembly yields zero headers, the pushing loop
iteration calls no host-chain submission, does not run the post-submission
sleep, and continues to the next iteration. -/
theorem claim8_empty_batch_skips (batch : List Header) (pushResult : Except String Unit)
    (hb : batch.length = 0) :
    pusherStep false false batch pushResult =
      { submitted := none, slept := false, stop := none } := by
  simp [pusherStep, hb]

/-- Witness for C8 at the empty batch. -/
theorem claim8_empty_batch_skips_witness :
    pusherStep false false [] (Except.ok ()) =
      { submitted := none, slept := false, stop := none } :=
  claim8_empty_batch_skips [] (Except.ok ()) rfl

/-- Claim C5: the puller's steady state starts at the discovered ancestor's
height plus one with the zero sentinel as `lastAdded`; while the cursor is
at or below the chain height it fetches the header there and, when it
differs from `lastAdded` under full-field equality, enqueues it, deep-copies
it into `lastAdded` and advances the cursor; when equal, nothing is
enqueued and the cursor does not advance. -/
theorem claim5_puller_steady_state (ancestor : Header) (s : PullerState) (ch : Int)
    (hdr : Header) (hle : s.latestHeight ≤ ch) :
    pullerInit ancestor = { latestHeight := ancestor.Height + 1, lastAdded := zeroHeader } ∧
    (headersEqual hdr s.lastAdded = false →
      pullerStep false false (Except.ok ch) (Except.ok hdr) s =
        PullerOutcome.cont
          { latestHeight := s.latestHeight + 1, lastAdded := copyHeaders s.lastAdded hdr }
          (some hdr) false) ∧
    (headersEqual hdr s.lastAdded = true →
      pullerStep false false (Except.ok ch) (Except.ok hdr) s =
        PullerOutcome.cont s none false) := by
  refine ⟨rfl, ?_, ?_⟩
  · intro hne
    simp [pullerStep, hle, hne]
  · intro heq
    simp [pullerStep, hle, heq]

/-- Witness for C5 at a concrete state below the tip. -/
theorem claim5_puller_steady_state_witness :
    pullerInit hdrRawA = { latestHeight := hdrRawA.Height + 1, lastAdded := zeroHeader } ∧
    (headersEqual hdrRawB ({ latestHeight := 5, lastAdded := zeroHeader } : PullerState).lastAdded = false →
      pullerStep false false (Except.ok 9) (Except.ok hdrRawB)
          { latestHeight := 5, lastAdded := zeroHeader } =
        PullerOutcome.cont
          { latestHeight := ({ latestHeight := 5, lastAdded := zeroHeader } : PullerState).latestHeight + 1
            lastAdded := copyHeaders ({ latestHeight := 5, lastAdded := zeroHeader } : PullerState).lastAdded hdrRawB }
          (some hdrRawB) false) ∧
    (headersEqual hdrRawB ({ latestHeight := 5, lastAdded := zeroHeader } : PullerState).lastAdded = true →
      pullerStep false false (Except.ok 9) (Except.ok hdrRawB)
          { latestHeight := 5, lastAdded := zeroHeader } =
        PullerOutcome.cont { latestHeight := 5, lastAdded := zeroHeader } none false) :=
  claim5_puller_steady_state hdrRawA { latestHeight := 5, lastAdded := zeroHeader } 9 hdrRawB
    (by decide)

/-- Claim C7: an iteration of the pulling loop exits exactly when the
context is done, the quit channel fired, `GetBlockCount` failed, or the
header fetch (performed only when the cursor is at or below the chain
height) failed; when the puller has merely reached the tip it sleeps and
continues. An iteration of the pushing loop stops exactly when the context
is done, the quit channel fired, or a non-empty batch failed to submit; an
empty batch continues the loop. -/
theorem claim7_loops_return_iff_cancel_or_error (c q : Bool) (bc : Except String Int)
    (hr : Except String Header) (s : PullerState) (batch : List Header)
    (pr : Except String Unit) :
    ((∃ r, pullerStep c q bc hr s = PullerOutcome.exit r) ↔
      (c = true ∨ q = true ∨ (∃ e, bc = Except.error e) ∨
        (∃ ch e, bc = Except.ok ch ∧ s.latestHeight ≤ ch ∧ hr = Except.error e))) ∧
    (∀ ch : Int, c = false → q = false → bc = Except.ok ch → ch < s.latestHeight →
      pullerStep c q bc hr s = PullerOutcome.cont s none true) ∧
    ((pusherStep c q batch pr).stop.isSome = true ↔
      (c = true ∨ q = true ∨ (batch ≠ [] ∧ ∃ e, pr = Except.error e))) ∧
    (c = false → q = false → batch = [] → (pusherStep c q batch pr).stop = none) := by
  refine ⟨?_, ?_, ?_, ?_⟩
  · cases c with
    | true => simp [pullerStep]
    | false =>
      cases q with
      | true => simp [pullerStep]
      | false =>
        cases bc with
        | error e => simp [pullerStep]
        | ok ch =>
          by_cases hle : s.latestHeight ≤ ch
          · cases hr with
            | error e => simp [pullerStep, hle]
            | ok hdr =>
              by_cases heq : headersEqual hdr s.lastAdded
              · simp [pullerStep, hle, heq]
              · simp [pullerStep, hle, heq]
          · simp only [pullerStep]
            rw [if_neg (by simp), if_neg (by simp)]
            simp only [if_neg hle]
            constructor
            · intro h
              obtain ⟨r, hrr⟩ := h
              exact absurd hrr (by simp)
            · intro h
              rcases h with h | h | ⟨e, h⟩ | ⟨ch2, e, h1, h2, h3⟩
              · exact absurd h (by simp)
              · exact absurd h (by simp)
              · exact absurd h (by simp)
              · injection h1 with h1
                omega
  · intro ch hc hq hbc hlt
    subst hc; subst hq; subst hbc
    simp [pullerStep, show ¬ s.latestHeight ≤ ch by omega]
  · cases c with
    | true => simp [pusherStep]
    | false =>
      cases q with
      | true => simp [pusherStep]
      | false =>
        cases batch with
        | nil => simp [pusherStep]
        | cons h t =>
          cases pr with
          | error e => simp [pusherStep]
          | ok u => simp [pusherStep]
  · intro hc hq hb
    subst hc; subst hq; subst hb
    simp [pusherStep]

/-- The backward crawl of `findBestBlock` preserves that `canon` is the
canonical header at the candidate's height, and its successful result is
reachable from the starting candidate through `PrevHash` fetches and is
full-field equal to the canonical header at its own height. -/
theorem findBestLoop_post (btc : BtcChainModel) :
    ∀ (fuel : Nat) (best canon c : Header),
      btc.getHeaderByHeight best.Height = Except.ok canon →
      findBestLoop btc fuel best canon = FindResult.ok c →
      PrevReach btc best c ∧
        ∃ canon2, btc.getHeaderByHeight c.Height = Except.ok canon2 ∧
          headersEqual c canon2 = true := by
  intro fuel
  induction fuel with
  | zero =>
    intro best canon c hcanon h
    exact absurd h (by simp [findBestLoop])
  | succ f ih =>
    intro best canon c hcanon h
    rw [findBestLoop] at h
    by_cases heq : headersEqual best canon
    · rw [if_pos heq] at h
      injection h with h2
      subst h2
      exact ⟨PrevReach.refl best, canon, hcanon, heq⟩
    · rw [if_neg heq] at h
      split at h
      · exact absurd h (by simp)
      · rename_i best2 hd
        split at h
        · exact absurd h (by simp)
        · rename_i canon2 hh
          obtain ⟨hre, hpost⟩ := ih best2 canon2 c hh h
          exact ⟨PrevReach.step best best2 c hd hre, hpost⟩

/-- Claim C3: `findBestBlock` fails when the host chain's best known digest
is unknown to the Bitcoin node; when it returns a header, that header was
reached from the resolved candidate by stepping back through `PrevHash`
fetches, and it is full-field equal to the canonical header fetched at its
own height (the loop's exit condition). -/
theorem claim3_findBestBlock_spec (btc : BtcChainModel) (d : Digest) (fuel : Nat) :
    (∀ e, btc.getHeaderByDigest d = Except.error e →
      findBestBlock (Except.ok d) btc fuel = FindResult.err e) ∧
    (∀ h0 c, btc.getHeaderByDigest d = Except.ok h0 →
      findBestBlock (Except.ok d) btc fuel = FindResult.ok c →
      PrevReach btc h0 c ∧
        ∃ canon, btc.getHeaderByHeight c.Height = Except.ok canon ∧
          headersEqual c canon = true) := by
  constructor
  · intro e he
    simp [findBestBlock, he]
  · intro h0 c h0d hrun
    simp only [findBestBlock, h0d] at hrun
    split at hrun
    · exact absurd hrun (by simp)
    · rename_i canon0 hh
      exact findBestLoop_post btc fuel h0 canon0 c hh hrun

/-- Claim C6: when every header the node returns for a digest has
non-negative height and every header fetched through a candidate's
`PrevHash` is strictly lower than that candidate, the backward crawl run
with fuel exceeding the starting candidate's height (that is, at most
`candidate.Height + 1` loop iterations) does not exhaust its fuel. -/
theorem claim6_ancestor_loop_terminates (btc : BtcChainModel) (fuel : Nat)
    (best canon : Header)
    (H1 : ∀ d h, btc.getHeaderByDigest d = Except.ok h → 0 ≤ h.Height)
    (H2 : ∀ d b h, btc.getHeaderByDigest d = Except.ok b →
      btc.getHeaderByDigest b.PrevHash = Except.ok h → h.Height < b.Height)
    (Hb : 0 ≤ best.Height)
    (Hstep : ∀ h, btc.getHeaderByDigest best.PrevHash = Except.ok h → h.Height < best.Height)
    (Hfuel : best.Height.toNat < fuel) :
    findBestLoop btc fuel best canon ≠ FindResult.outOfFuel := by
  induction fuel generalizing best canon with
  | zero => omega
  | succ f ih =>
    rw [findBestLoop]
    intro hcontra
    by_cases heq : headersEqual best canon
    · rw [if_pos heq] at hcontra
      exact absurd hcontra (by simp)
    · rw [if_neg heq] at hcontra
      split at hcontra
      · exact absurd hcontra (by simp)
      · rename_i best2 hd
        split at hcontra
        · exact absurd hcontra (by simp)
        · rename_i canon2 hh
          have hlt : best2.Height < best.Height := Hstep best2 hd
          have h0 : 0 ≤ best2.Height := H1 best.PrevHash best2 hd
          exact ih best2 canon2 h0
            (fun h hstep2 => H2 best.PrevHash best2 h hd hstep2) (by omega) hcontra

/-- Witness for C6: the two-header node, starting from `hdrB1` against a
differing canonical header, terminates within two loop iterations. -/
theorem claim6_ancestor_loop_terminates_witness :
    findBestLoop btcW 2 hdrB1 hdrB0 ≠ FindResult.outOfFuel := by
  refine claim6_ancestor_loop_terminates btcW 2 hdrB1 hdrB0 ?_ ?_ ?_ ?_ ?_
  · intro d h hd
    simp only [btcW] at hd
    split at hd
    · injection hd with hd; subst hd; decide
    · split at hd
      · injection hd with hd; subst hd; decide
      · exact absurd hd (by simp)
  · intro d b h hdb hbh
    simp only [btcW] at hdb
    split at hdb
    · injection hdb with hdb
      subst hdb
      have hto : btcW.getHeaderByDigest hdrB0.PrevHash = Except.error "unknown digest" := by
        rfl
      rw [hto] at hbh
      exact absurd hbh (by simp)
    · split at hdb
      · injection hdb with hdb
        subst hdb
        have hto : btcW.getHeaderByDigest hdrB1.PrevHash = Except.ok hdrB0 := by rfl
        rw [hto] at hbh
        injection hbh with hbh
        subst hbh
        decide
      · exact absurd hdb (by simp)
  · decide
  · intro h hh
    have hto : btcW.getHeaderByDigest hdrB1.PrevHash = Except.ok hdrB0 := by rfl
    rw [hto] at hh
    injection hh with hh
    subst hh
    decide
  · decide

/-- The first header the pulling loop enqueues from a given state is the
chain's header at the state's cursor height. -/
theorem pullerRun_head (m : ChainModel) (cancel : Nat → Bool) :
    ∀ (fuel i : Nat) (s : PullerState) (h : Header),
      (pullerRun m cancel fuel i s).head? = some h →
      m.chain s.latestHeight = some h := by
  intro fuel
  induction fuel with
  | zero =>
    intro i s h hh
    simp [pullerRun] at hh
  | succ f ih =>
    intro i s h hh
    rw [pullerRun] at hh
    by_cases hc : cancel i = true
    · simp [pullerStep, hc] at hh
    · by_cases hle : s.latestHeight ≤ m.tip
      · cases hch : m.chain s.latestHeight with
        | none => simp [pullerStep, hc, hle, fetchAt, hch] at hh
        | some hdr =>
          by_cases heqq : headersEqual hdr s.lastAdded
          · simp only [pullerStep, hc, hle, fetchAt, hch, heqq] at hh
            have := ih (i + 1) s h (by simpa using hh)
            rw [hch] at this
            exact this
          · simp [pullerStep, hc, hle, fetchAt, hch, heqq] at hh
            rw [hh]
      · simp only [pullerStep, hc, hle, fetchAt] at hh
        exact ih (i + 1) s h (by simpa using hh)

/-- Against a fixed chain view whose headers carry their own height and
link to their parent by hash, every trace the pulling loop enqueues is
consecutively linked. -/
theorem pullerRun_linked (m : ChainModel) (cancel : Nat → Bool)
    (H1 : ∀ k h, m.chain k = some h → h.Height = k)
    (H2 : ∀ k h h2, m.chain k = some h → m.chain (k + 1) = some h2 →
      h2.PrevHash = h.Hash) :
    ∀ (fuel i : Nat) (s : PullerState),
      wellLinked (pullerRun m cancel fuel i s) = true := by
  intro fuel
  induction fuel with
  | zero =>
    intro i s
    simp [pullerRun, wellLinked]
  | succ f ih =>
    intro i s
    rw [pullerRun]
    by_cases hc : cancel i = true
    · simp [pullerStep, hc, wellLinked]
    · by_cases hle : s.latestHeight ≤ m.tip
      · cases hch : m.chain s.latestHeight with
        | none => simp [pullerStep, hc, hle, fetchAt, hch, wellLinked]
        | some hdr =>
          by_cases heqq : headersEqual hdr s.lastAdded
          · simp only [pullerStep, hc, hle, fetchAt, hch, heqq]
            simpa using ih (i + 1) s
          · simp only [pullerStep, hc, hle, fetchAt, hch, heqq]
            simp only [Option.toList_some, List.singleton_append, if_true]
            cases hrest : pullerRun m cancel f (i + 1)
                { latestHeight := s.latestHeight + 1
                  lastAdded := copyHeaders s.lastAdded hdr } with
            | nil => simp [wellLinked, hrest]
            | cons h2 t =>
              have hh2 : m.chain (s.latestHeight + 1) = some h2 := by
                have := pullerRun_head m cancel f (i + 1)
                  { latestHeight := s.latestHeight + 1
                    lastAdded := copyHeaders s.lastAdded hdr } h2
                  (by rw [hrest]; rfl)
                simpa using this
              have e0 : hdr.Height = s.latestHeight := H1 _ _ hch
              have e1 : h2.Height = s.latestHeight + 1 := H1 _ _ hh2
              have e2 : h2.PrevHash = hdr.Hash := H2 s.latestHeight hdr h2 hch hh2
              have hlink : wellLinked (h2 :: t) = true := by
                rw [← hrest]
                exact ih (i + 1) _
              simp [hrest, wellLinked, hlink, e0, e1, e2]
      · simp only [pullerStep, hc, hle, fetchAt]
        simpa using ih (i + 1) s

/-- Claim C1: run against a fixed chain view whose headers carry their own
height and link to their parent by hash, consecutively enqueued headers of
the pulling loop satisfy `Height` increasing by one with matching
`PrevHash`/`Hash`, and the first header enqueued after startup sits at the
discovered ancestor's height plus one. -/
theorem claim1_consecutive_enqueues_linked (m : ChainModel) (cancel : Nat → Bool)
    (ancestor : Header) (fuel : Nat)
    (H1 : ∀ k h, m.chain k = some h → h.Height = k)
    (H2 : ∀ k h h2, m.chain k = some h → m.chain (k + 1) = some h2 →
      h2.PrevHash = h.Hash) :
    wellLinked (pullerRun m cancel fuel 0 (pullerInit ancestor)) = true ∧
    ∀ h, (pullerRun m cancel fuel 0 (pullerInit ancestor)).head? = some h →
      h.Height = ancestor.Height + 1 := by
  constructor
  · exact pullerRun_linked m cancel H1 H2 fuel 0 _
  · intro h hh
    have hc := pullerRun_head m cancel fuel 0 _ h hh
    have := H1 _ _ hc
    simpa [pullerInit] using this

/-- Every header of the concrete chain view carries its own height. -/
theorem chainW_heights : ∀ k h, chainW.chain k = some h → h.Height = k := by
  intro k h hk
  simp only [chainW] at hk
  split at hk
  · rename_i h1
    injection hk with hk
    subst hk
    subst h1
    decide
  · split at hk
    · rename_i h2
      injection hk with hk
      subst hk
      subst h2
      decide
    · exact absurd hk (by simp)

/-- Consecutive headers of the concrete chain view link by hash. -/
theorem chainW_linked : ∀ k h h2, chainW.chain k = some h →
    chainW.chain (k + 1) = some h2 → h2.PrevHash = h.Hash := by
  intro k h h2 hk hk2
  simp only [chainW] at hk hk2
  split at hk
  · rename_i h1
    injection hk with hk
    subst hk
    subst h1
    norm_num at hk2
    rw [← hk2]
    decide
  · split at hk
    · rename_i hcond
      injection hk with hk
      subst hk
      subst hcond
      norm_num at hk2
      exact absurd hk2 (by simp)
    · exact absurd hk (by simp)

/-- Witness for C1: running the pulling loop over the two-header chain view
from the concrete ancestor yields a consecutively linked trace whose first
header sits at the ancestor's height plus one. -/
theorem claim1_consecutive_enqueues_linked_witness :
    wellLinked (pullerRun chainW (fun _ => false) 6 0 (pullerInit ancW)) = true ∧
    ∀ h, (pullerRun chainW (fun _ => false) 6 0 (pullerInit ancW)).head? = some h →
      h.Height = ancW.Height + 1 :=
  claim1_consecutive_enqueues_linked chainW (fun _ => false) ancW 6
    chainW_heights chainW_linked

end TbtcRelay
